import Mathlib

/-!
Lithe: consensus parameters and console command handlers.

A shallow embedding of

* `src/CryptoNoteConfig.h` (the reference consensus parameters),
* `src/SimpleWallet/SimpleWallet.cpp` (`simple_wallet::transfer`, `set_log`,
  `create_integrated`, `init`, `reset`),
* `src/SimpleWallet/TransferCommand.h` (`ArgumentReader`),
* `src/Common/CommaIterator.h` (`CommaIterator`),
* `src/Daemon/DaemonCommandsHandler.cpp` (`rollback_chain`, `print_bc`,
  `set_log`, `start_mining`, `print_stat`).

Machine integers are natural numbers; where the source arithmetic can leave the
range of its type the reduction modulo `2 ^ w` is written out.  Collaborators
whose code is not part of the sources (the core, the wallet, the string
parser, the user at the console) are parameters of the embedded functions.
-/

namespace CryptoNote
namespace parameters

/-- Source: `const uint64_t CRYPTONOTE_PUBLIC_ADDRESS_BASE58_PREFIX = 0xe6dc4e2;` -/
def CRYPTONOTE_PUBLIC_ADDRESS_BASE58_PREFIX : Nat := 0xe6dc4e2

/-- Source: `const uint64_t POINT = UINT64_C(1000);` -/
def POINT : Nat := 1000

/-- Source: `const uint64_t COIN = UINT64_C(100000);` (smallest atomic unit). -/
def COIN : Nat := 100000

/-- Source: `const uint64_t MINIMUM_FEE = UINT64_C(100);` -/
def MINIMUM_FEE : Nat := 100

/-- Source: `const uint64_t MINIMUM_FEE_BANKING = UINT64_C(1000);` -/
def MINIMUM_FEE_BANKING : Nat := 1000

/-- Source: `const uint64_t DEFAULT_DUST_THRESHOLD = UINT64_C(10);` -/
def DEFAULT_DUST_THRESHOLD : Nat := 10

/-- Source: `const uint64_t DIFFICULTY_TARGET = 120;` (two minutes). -/
def DIFFICULTY_TARGET : Nat := 120

/-- Source: `EXPECTED_NUMBER_OF_BLOCKS_PER_DAY = 24 * 60 * 60 / DIFFICULTY_TARGET`. -/
def EXPECTED_NUMBER_OF_BLOCKS_PER_DAY : Nat := 24 * 60 * 60 / DIFFICULTY_TARGET

/-- Source: `DIFFICULTY_WINDOW = EXPECTED_NUMBER_OF_BLOCKS_PER_DAY`. -/
def DIFFICULTY_WINDOW : Nat := EXPECTED_NUMBER_OF_BLOCKS_PER_DAY

/-- Source: `DIFFICULTY_WINDOW_V3 = 60` (changed for LWMA3). -/
def DIFFICULTY_WINDOW_V3 : Nat := 60

/-- Source: `DIFFICULTY_BLOCKS_COUNT = DIFFICULTY_WINDOW_V3 + 1` (added for LWMA3). -/
def DIFFICULTY_BLOCKS_COUNT : Nat := DIFFICULTY_WINDOW_V3 + 1

/-- Source: `DIFFICULTY_CUT = 60` (timestamps to cut after sorting). -/
def DIFFICULTY_CUT : Nat := 60

/-- Source: `const uint64_t MINIMUM_MIXIN = 4;` -/
def MINIMUM_MIXIN : Nat := 4

/-- Source: `CRYPTONOTE_MEMPOOL_TX_LIVETIME = (60 * 60 * 12)`. -/
def CRYPTONOTE_MEMPOOL_TX_LIVETIME : Nat := 60 * 60 * 12

/-- Source: `CRYPTONOTE_MEMPOOL_TX_FROM_ALT_BLOCK_LIVETIME = (60 * 60 * 24)`. -/
def CRYPTONOTE_MEMPOOL_TX_FROM_ALT_BLOCK_LIVETIME : Nat := 60 * 60 * 24

/-- Source: `CRYPTONOTE_NUMBER_OF_PERIODS_TO_FORGET_TX_DELETED_FROM_POOL = 7`. -/
def CRYPTONOTE_NUMBER_OF_PERIODS_TO_FORGET_TX_DELETED_FROM_POOL : Nat := 7

end parameters

/-- Modelled from the spec: the difficulty function (`Currency.cpp`) is not
among the sources; the spec has it "compute pairwise solve-times between
consecutive blocks" of a window of timestamps.  For timestamps given oldest
first this is one difference per pair of neighbours (a timestamp may be smaller
than the one before it, so the differences are integers). -/
def solveTimes : List Nat → List Int
  | [] => []
  | [_] => []
  | a :: b :: rest => ((b : Int) - (a : Int)) :: solveTimes (b :: rest)

end CryptoNote

namespace Common

/-- Value of a decimal digit character. -/
def digitValue (c : Char) : Option Nat :=
  if 48 ≤ c.toNat ∧ c.toNat ≤ 57 then some (c.toNat - 48) else none

/-- Reads a run of decimal digits, most significant first. -/
def readDecimal : List Char → Nat → Option Nat
  | [], acc => some acc
  | c :: cs, acc =>
    match digitValue c with
    | none => none
    | some d => readDecimal cs (10 * acc + d)

/-- Modelled from the spec: `Common::fromString(text, value)` lives in
`Common/StringTools.h`, which is not among the sources, and the spec is silent
about it.  The command handlers below therefore take the parser as a parameter
(`none` when it reports failure, `some v` when it stores `v`); this stand-in is
only used to run them on concrete console input.  It reads a non-empty string
of decimal digits whose value fits an unsigned integer of `bits` bits, the
common ground of every unsigned number reader. -/
def fromStringDec (bits : Nat) (text : String) : Option Nat :=
  match text.toList with
  | [] => none
  | cs =>
    match readDecimal cs 0 with
    | none => none
    | some v => if v < 2 ^ bits then some v else none

end Common

namespace Logging

/-- Modelled from the spec: `Logging::TRACE` is the last member of the enum
`Logging::Level` (`Logging/ILogger.h`, not among the sources); its value is 5
(`FATAL = 0, ERROR, WARNING, INFO, DEBUGGING, TRACE`). -/
def TRACE : Nat := 5

end Logging

namespace CryptoNote

/-- One destination of a transfer (`WalletLegacyTransfer`: address and
`int64_t` amount). -/
structure WalletLegacyTransfer where
  address : String
  amount : Int
  deriving Repr, DecidableEq

/-- A message attached to a transaction for one destination. -/
structure TransactionMessage where
  message : String
  address : String
  deriving Repr, DecidableEq

/-- The fields of `class TransferCommand` (`TransferCommand.h`); `aliases` is a
`std::map`, kept here as the list of its entries in key order. -/
structure TransferCommand where
  fake_outs_count : Nat
  dsts : List WalletLegacyTransfer
  extra : List Nat
  fee : Nat
  aliases : List (String × List WalletLegacyTransfer)
  messages : List String
  ttl : Nat
  deriving Repr, DecidableEq

/-- The arguments of one call `m_wallet->sendTransaction(transactionSK,
transfers, fee, extra, mixIn, unlockTimestamp, messages, ttl)`. -/
structure SendTransactionCall where
  transfers : List WalletLegacyTransfer
  fee : Nat
  extra : List Nat
  mixIn : Nat
  unlockTimestamp : Nat
  messages : List TransactionMessage
  ttl : Nat
  deriving Repr, DecidableEq

/-- What `simple_wallet::transfer` consults outside its own body: the argument
parser `TransferCommand::parseArguments` (`none`: it returned false or threw),
`resolveAlias` (`none`: it threw), `Currency::parseAccountAddressString`, the
two console confirmations and the clock `time(nullptr)`. -/
structure WalletEnv where
  parseArguments : List String → Option TransferCommand
  resolveAlias : String → Option String
  parseAccountAddressString : String → Bool
  askAliasesTransfersConfirmation : List (String × List WalletLegacyTransfer) → Bool
  confirmTransaction : TransferCommand → Bool → Bool
  time : Nat

namespace simple_wallet

/-- The first loop of `simple_wallet::transfer`: every alias is resolved to an
address that must parse, and that address is written into the transfers of the
alias.  `none` when a resolution throws (the handler then returns). -/
def resolveAliases (env : WalletEnv) :
    List (String × List WalletLegacyTransfer) →
      Option (List (String × List WalletLegacyTransfer))
  | [] => some []
  | kv :: rest =>
    match env.resolveAlias kv.1 with
    | none => none
    | some address =>
      if env.parseAccountAddressString address then
        match resolveAliases env rest with
        | none => none
        | some rest1 =>
          some ((kv.1, kv.2.map (fun t => { t with address := address })) :: rest1)
      else none

/-- Alias handling of `simple_wallet::transfer`: resolution, then, when there
are aliases, the confirmation question and the copy of the alias transfers to
the end of `cmd.dsts`.  `none` when the handler returns before
`confirmTransaction`. -/
def mergeAliases (env : WalletEnv) (cmd : TransferCommand) : Option TransferCommand :=
  match resolveAliases env cmd.aliases with
  | none => none
  | some aliases =>
    if aliases.isEmpty then some { cmd with aliases := aliases }
    else if env.askAliasesTransfersConfirmation aliases then
      some { cmd with
        aliases := aliases
        dsts := cmd.dsts ++ (aliases.map (fun kv => kv.2)).flatten }
    else none

/-- The handler `simple_wallet::transfer`: its return value and the call of
`sendTransaction` it makes, if any. -/
def transfer (env : WalletEnv) (args : List String) : Bool × Option SendTransactionCall :=
  match env.parseArguments args with
  | none => (true, none)
  | some cmd0 =>
    match mergeAliases env cmd0 with
    | none => (true, none)
    | some cmd =>
      let messages : List TransactionMessage :=
        (cmd.dsts.map (fun dst =>
          cmd.messages.map (fun msg => TransactionMessage.mk msg dst.address))).flatten
      let ttl : Nat := if cmd.ttl ≠ 0 then (env.time + cmd.ttl) % 2 ^ 64 else 0
      let proceed := env.confirmTransaction cmd (decide (cmd.dsts.length > 1))
      if !proceed then (true, none)
      else
        let fake_outs_count := parameters.MINIMUM_MIXIN
        let fee := if cmd.fee < parameters.MINIMUM_FEE then parameters.MINIMUM_FEE else cmd.fee
        (true, some ⟨cmd.dsts, fee, cmd.extra, fake_outs_count, 0, messages, ttl⟩)

/-- The handler `simple_wallet::set_log(args)` of the wallet console, the
sibling of the daemon's `set_log`: the parsed `uint16_t` is compared with
`Logging::TRACE` as it is, without an increment. -/
def set_log (fromString : String → Option Nat) (args : List String) : Bool × Option Nat :=
  match args with
  | [arg0] =>
    match fromString arg0 with
    | none => (true, none)
    | some l => if l > Logging.TRACE then (true, none) else (true, some l)
  | _ => (true, none)

end simple_wallet

end CryptoNote

namespace DaemonCommandsHandler

/-- The handler `print_bc(args)`: its return value and the call
`m_core.print_blockchain(start_index, end_index)` it makes, if any.
`daemonHeight` is the value of `m_core.getDaemonHeight()` as stored in the
`uint32_t end_block_parametr`. -/
def print_bc (fromString : String → Option Nat) (daemonHeight : Nat)
    (args : List String) : Bool × Option (Nat × Nat) :=
  match args with
  | [] => (false, none)
  | arg0 :: rest =>
    let end_block_parametr := daemonHeight
    match fromString arg0 with
    | none => (false, none)
    | some start_index =>
      let parsedEnd : Option Nat :=
        match rest with
        | [] => some 0
        | arg1 :: _ => fromString arg1
      match parsedEnd with
      | none => (false, none)
      | some end_index0 =>
        let end_index := if end_index0 = 0 then end_block_parametr else end_index0
        if end_index > end_block_parametr then (false, none)
        else if end_index ≤ start_index then (false, none)
        else (true, some (start_index, end_index))

/-- The handler `set_log(args)` of the daemon: its return value and the
argument of the call `m_logManager.setMaxLevel(...)` it makes, if any.  `l` is
a `uint16_t`, so `++l` is taken modulo `2 ^ 16`. -/
def set_log (fromString : String → Option Nat) (args : List String) : Bool × Option Nat :=
  match args with
  | [arg0] =>
    match fromString arg0 with
    | none => (true, none)
    | some l0 =>
      let l := (l0 + 1) % 2 ^ 16
      if l > Logging.TRACE then (true, none)
      else (true, some l)
  | _ => (true, none)

/-- The logger's maximum level after `set_log(args)`, starting from `level`. -/
def levelAfterSetLog (fromString : String → Option Nat) (args : List String)
    (level : Nat) : Nat :=
  match (set_log fromString args).2 with
  | none => level
  | some l => l

/-- The handler `start_mining(args)`: its return value and the call
`m_core.get_miner().start(adr, threads_count)` it makes, if any.  The address
type `α` and `Currency::parseAccountAddressString` are parameters. -/
def start_mining {α : Type} (parseAccountAddressString : String → Option α)
    (fromString : String → Option Nat) (args : List String) : Bool × Option (α × Nat) :=
  match args with
  | [] => (true, none)
  | front :: rest =>
    match parseAccountAddressString front with
    | none => (true, none)
    | some adr =>
      let threads_count : Nat :=
        match rest with
        | [] => 1
        | arg1 :: _ =>
          match fromString arg1 with
          | none => 1
          | some parsed => if 0 < parsed then parsed else 1
      (true, some (adr, threads_count))

end DaemonCommandsHandler

namespace CryptoNote

/-- A parsed command used to run `transfer` on a concrete input: one
destination, no alias, a fee of 10 atomic units. -/
def sampleCommand : TransferCommand :=
  { fake_outs_count := 0
    dsts := [⟨"ethiLsample", 500000⟩]
    extra := []
    fee := 10
    aliases := []
    messages := []
    ttl := 0 }

/-- A console session in which the arguments parse to `sampleCommand` and the
user answers yes. -/
def sampleWalletEnv : WalletEnv :=
  { parseArguments := fun _ => some sampleCommand
    resolveAlias := fun _ => none
    parseAccountAddressString := fun _ => true
    askAliasesTransfersConfirmation := fun _ => true
    confirmTransaction := fun _ _ => true
    time := 1600000000 }

/-- An address parser for concrete runs: it accepts the one sample address. -/
def sampleAddressParser (s : String) : Option String :=
  if s = "ethiLsample" then some s else none

/-- An address encoder for concrete runs: the decimal tag, a colon and the
data, in place of the Base58 encoding. -/
def sampleEncodeAddr (tag : Nat) (data : String) : String :=
  toString tag ++ ":" ++ data

end CryptoNote

namespace CryptoNote

/-- The class template `ArgumentReader<IterT, ValueT>` of `TransferCommand.h`.
An iterator is a position in the underlying sequence `args`; the two
conditions are what the constructor expects of its arguments, a valid range
`[begin, end)` of that sequence, and `next` keeps them. -/
structure ArgumentReader (α : Type) where
  args : List α
  m_cur : Nat
  m_begin : Nat
  m_end : Nat
  cur_le_end : m_cur ≤ m_end
  end_le_size : m_end ≤ args.length

namespace ArgumentReader

/-- The constructor called as `ArgumentReader(args.begin(), args.end())`:
`m_begin(begin), m_end(end), m_cur(begin)`. -/
def ofList {α : Type} (args : List α) : ArgumentReader α :=
  { args := args
    m_cur := 0
    m_begin := 0
    m_end := args.length
    cur_le_end := Nat.zero_le _
    end_le_size := Nat.le_refl _ }

/-- One call of `bool eof() const`: the answer `m_cur == m_end` and the reader
after the call. -/
def eof {α : Type} (r : ArgumentReader α) : Bool × ArgumentReader α :=
  (decide (r.m_cur = r.m_end), r)

/-- One call of `ValueT next()`: the value returned, or the message of the
`std::runtime_error` thrown, and the reader after the call.  `*m_cur++` reads
the element at `m_cur` and moves `m_cur` one step. -/
def next {α : Type} (r : ArgumentReader α) : Except String α × ArgumentReader α :=
  if h : r.m_cur = r.m_end then
    (Except.error "unexpected end of arguments", r)
  else
    (Except.ok (r.args.get ⟨r.m_cur, by
        have h1 := r.cur_le_end
        have h2 := r.end_le_size
        omega⟩),
      { r with
        m_cur := r.m_cur + 1
        cur_le_end := by
          have h1 := r.cur_le_end
          omega })

/-- The results of `k` successive calls of `next()`, in order, and the reader
after them. -/
def nextN {α : Type} : Nat → ArgumentReader α → List (Except String α) × ArgumentReader α
  | 0, r => ([], r)
  | k + 1, r =>
    let step := next r
    let more := nextN k step.2
    (step.1 :: more.1, more.2)

end ArgumentReader

end CryptoNote

/-- The struct `CommaIterator` of `Common/CommaIterator.h`.  The field `os`
holds the characters of the stream the iterator points to. -/
structure CommaIterator where
  os : String
  comma : String
  first : Bool
  deriving Repr, DecidableEq

namespace CommaIterator

/-- The constructor `CommaIterator(os, comma)`: `first(true)`. -/
def new (os : String) (comma : String) : CommaIterator :=
  { os := os, comma := comma, first := true }

/-- Both `operator++()` and `operator++(int)`: `return *this;`. -/
def increment (it : CommaIterator) : CommaIterator := it

/-- The member `operator*()`: `return *this;`. -/
def dereference (it : CommaIterator) : CommaIterator := it

/-- The member `operator=(const T& t)`; `put t` is the text that `*os << t`
writes for a value of type `T`. -/
def assign {T : Type} (put : T → String) (it : CommaIterator) (t : T) : CommaIterator :=
  let it1 : CommaIterator :=
    if it.first then { it with first := false }
    else { it with os := it.os ++ it.comma }
  { it1 with os := it1.os ++ put t }

/-- The loop of `std::copy(x.begin(), x.end(), result)` from the usage
comment: `*result = *first; ++result;` for every element in turn. -/
def copy {T : Type} (put : T → String) (x : List T) (result : CommaIterator) : CommaIterator :=
  x.foldl (fun it t => increment (assign put (dereference it) t)) result

end CommaIterator

namespace CryptoNote
namespace simple_wallet

/-- One character of the class `[0-9a-f]`. -/
def isLowerHexChar (c : Char) : Bool :=
  (decide (48 ≤ c.toNat) && decide (c.toNat ≤ 57)) ||
    (decide (97 ≤ c.toNat) && decide (c.toNat ≤ 102))

/-- The test `regex_match(paymentID, hexChars)` for
`std::regex hexChars("^[0-9a-f]+$")`: the whole string is a non-empty run of
characters of the class `[0-9a-f]`. -/
def hexChars_match (paymentID : String) : Bool :=
  !paymentID.toList.isEmpty && paymentID.toList.all isLowerHexChar

/-- The handler `simple_wallet::create_integrated(args)`: its return value and
the integrated address it prints, if any.  `getAddress` is
`m_wallet->getAddress()`; `parseAccountAddressString` gives the keys of an
address as the string `Common::asString(toBinaryArray(addr))`, or `none` when
the address does not parse; `encode_addr` is `Tools::Base58::encode_addr`.
`paymentID.size()` counts the bytes of the string. -/
def create_integrated (getAddress : String)
    (parseAccountAddressString : String → Option String)
    (encode_addr : Nat → String → String) (args : List String) : Bool × Option String :=
  match args with
  | [] => (true, none)
  | paymentID :: _ =>
    if paymentID.utf8ByteSize ≠ 64 || !hexChars_match paymentID then (true, none)
    else
      let address := getAddress
      match parseAccountAddressString address with
      | none => (true, none)
      | some keys =>
        let integratedAddress :=
          encode_addr parameters.CRYPTONOTE_PUBLIC_ADDRESS_BASE58_PREFIX (paymentID ++ keys)
        (true, some integratedAddress)

/-- What the claim asks of a payment ID: exactly 64 characters, each of them one
of `0-9`, `a-f`. -/
def validPaymentId (paymentID : String) : Prop :=
  paymentID.length = 64 ∧ ∀ c ∈ paymentID.toList, isLowerHexChar c = true

end simple_wallet
end CryptoNote

namespace CryptoNote

/-- Source: `const int RPC_DEFAULT_PORT = 30000;` -/
def RPC_DEFAULT_PORT : Nat := 30000

namespace simple_wallet

/-- The command-line values `simple_wallet::handle_command_line` reads from the
`variables_map`: `wallet-file`, `generate-new-wallet`, `daemon-address`,
`daemon-host`, `daemon-port` and `exit-after-generate`. -/
structure variables_map where
  wallet_file : String
  generate_new_wallet : String
  daemon_address : String
  daemon_host : String
  daemon_port : Nat
  exit_after_generate : Bool
  deriving Repr, DecidableEq

/-- The members of `simple_wallet` that the first part of `init` reads or
writes, and the global `key_import`. -/
structure WalletMembers where
  m_wallet_file_arg : String
  m_generate_new : String
  m_import_new : String
  m_daemon_address : String
  m_daemon_host : String
  m_daemon_port : Nat
  m_exit_after_generate : Bool
  remote_fee_address : String
  key_import : Bool
  deriving Repr, DecidableEq

/-- The members as the constructor of `simple_wallet` leaves them: empty
strings, `m_daemon_port(0)`, and the global `bool key_import = true`. -/
def WalletMembers.fresh : WalletMembers :=
  { m_wallet_file_arg := ""
    m_generate_new := ""
    m_import_new := ""
    m_daemon_address := ""
    m_daemon_host := ""
    m_daemon_port := 0
    m_exit_after_generate := false
    remote_fee_address := ""
    key_import := true }

/-- What the first part of `init` consults outside its own body:
`parseUrlAddress` (`none`: an exception leaves it; otherwise its return value
with the host and port it stored), `getFeeAddress` for a host and port, and the
lines the user types at the console. -/
structure InitEnv where
  parseUrlAddress : String → Option (Bool × String × Nat)
  getFeeAddress : String → Nat → String
  stdin : List String

/-- How the first part of `init` ends: it returns false after printing
`message`, an exception leaves it, it waits for console input that never
comes, or control passes the wallet-choice guard with the members `st`. -/
inductive InitResult where
  | refused (message : String)
  | threw
  | blocked
  | passed (st : WalletMembers)
  deriving Repr, DecidableEq

/-- The message of the guard on `generate-new-wallet` and `wallet-file`. -/
def simultaneousMessage : String :=
  "You can't specify the \"generate-new-wallet\" and \"wallet-file\" arguments simultaneously."

/-- The function `simple_wallet::handle_command_line(vm)`. -/
def handle_command_line (vm : variables_map) (st : WalletMembers) : WalletMembers :=
  { st with
    m_wallet_file_arg := vm.wallet_file
    m_generate_new := vm.generate_new_wallet
    m_daemon_address := vm.daemon_address
    m_daemon_host := vm.daemon_host
    m_daemon_port := vm.daemon_port
    m_exit_after_generate := vm.exit_after_generate }

/-- The first console loop of `init`: lines are read until one starts, in
either case, with `o`, `g`, `i` or `s`; the result is that letter in lower case
and the lines left.  `none` when the input ends first. -/
def readChoice : List String → Option (Char × List String)
  | [] => none
  | answer :: rest =>
    let c := (answer.toList.headD (Char.ofNat 0)).toLower
    if c = 'o' ∨ c = 'g' ∨ c = 'i' ∨ c = 's' then some (c, rest)
    else readChoice rest

/-- The characters `boost::algorithm::trim` removes in the default locale:
space, tab, line feed, vertical tab, form feed and carriage return. -/
def isSpace (c : Char) : Bool :=
  decide (c.toNat = 32) || (decide (9 ≤ c.toNat) && decide (c.toNat ≤ 13))

/-- The call `boost::algorithm::trim(userInput)`: the space characters at both
ends of the line are removed. -/
def trim (userInput : String) : String :=
  String.mk ((userInput.toList.dropWhile isSpace).reverse.dropWhile isSpace).reverse

/-- The second console loop of `init`: lines are read and trimmed until one is
not empty.  `none` when the input ends first. -/
def readName : List String → Option (String × List String)
  | [] => none
  | line :: rest =>
    let userInput := trim line
    if userInput.isEmpty then readName rest else some (userInput, rest)

/-- The block of `init` that asks for a wallet at the console, entered when
neither `generate-new-wallet` nor `wallet-file` was given; `passed st` when the
block is left at its end with the members `st`. -/
def askWallet (stdin : List String) (st : WalletMembers) : InitResult :=
  match readChoice stdin with
  | none => InitResult.blocked
  | some (c, rest) =>
    if c = 'e' then InitResult.refused ""
    else
      match readName rest with
      | none => InitResult.blocked
      | some (userInput, _) =>
        if c = 'i' then
          InitResult.passed { st with key_import := true, m_import_new := userInput }
        else if c = 's' then
          InitResult.passed { st with key_import := false, m_import_new := userInput }
        else if c = 'g' then InitResult.passed { st with m_generate_new := userInput }
        else InitResult.passed { st with m_wallet_file_arg := userInput }

/-- The guard of `init` on the wallet arguments:
`!m_generate_new.empty() && !m_wallet_file_arg.empty() && !m_import_new.empty()`. -/
def walletGuard (st : WalletMembers) : InitResult :=
  if !st.m_generate_new.isEmpty && !st.m_wallet_file_arg.isEmpty &&
      !st.m_import_new.isEmpty then
    InitResult.refused simultaneousMessage
  else InitResult.passed st

/-- What follows the daemon part of `init`: the console block when no wallet
was named on the command line, then the guard on the wallet arguments. -/
def walletChoice (env : InitEnv) (st : WalletMembers) : InitResult :=
  if st.m_generate_new.isEmpty && st.m_wallet_file_arg.isEmpty then
    match askWallet env.stdin st with
    | InitResult.passed st1 => walletGuard st1
    | other => other
  else walletGuard st

/-- The defaults of `init` for the daemon: `localhost` for an empty
`m_daemon_host`, `RPC_DEFAULT_PORT` for a zero `m_daemon_port`. -/
def daemonDefaults (st : WalletMembers) : WalletMembers :=
  let st1 := if st.m_daemon_host.isEmpty then { st with m_daemon_host := "localhost" } else st
  if st1.m_daemon_port = 0 then { st1 with m_daemon_port := RPC_DEFAULT_PORT } else st1

/-- The branch of `init` for a given `daemon-address`, after `parseUrlAddress`
has stored `host` and `port`: the fee address of that node is fetched. -/
def remoteDaemon (env : InitEnv) (st : WalletMembers) (host : String) (port : Nat) :
    WalletMembers :=
  { st with
    m_daemon_host := host
    m_daemon_port := port
    remote_fee_address := env.getFeeAddress host port }

/-- The branch of `init` without `daemon-address`: the fee address is fetched
when the host is not empty, and `m_daemon_address` is put together from host
and port. -/
def localDaemon (env : InitEnv) (st : WalletMembers) : WalletMembers :=
  let st1 :=
    if !st.m_daemon_host.isEmpty then
      { st with remote_fee_address := env.getFeeAddress st.m_daemon_host st.m_daemon_port }
    else st
  { st1 with
    m_daemon_address := "http://" ++ st1.m_daemon_host ++ ":" ++ toString st1.m_daemon_port }

/-- The daemon part of `init`, from the test on `daemon-address`, `daemon-host`
and `daemon-port` to the line before the wallet is chosen; `passed st` when
control leaves it at its end with the members `st`. -/
def daemonChoice (env : InitEnv) (st : WalletMembers) : InitResult :=
  if !st.m_daemon_address.isEmpty && (!st.m_daemon_host.isEmpty || st.m_daemon_port != 0) then
    InitResult.refused
      "You can't specify Daemon host or port several times. Please choose only one."
  else if !(daemonDefaults st).m_daemon_address.isEmpty then
    match env.parseUrlAddress (daemonDefaults st).m_daemon_address with
    | none => InitResult.threw
    | some (false, _, _) =>
      InitResult.refused
        ("Failed to parse Daemon address: " ++ (daemonDefaults st).m_daemon_address)
    | some (true, host, port) =>
      InitResult.passed (remoteDaemon env (daemonDefaults st) host port)
  else InitResult.passed (localDaemon env (daemonDefaults st))

/-- The function `simple_wallet::init(vm)` from its start to the guard on the
wallet arguments (the first return statements of the function); `passed st`
stands for the rest of the function, run with the members `st`. -/
def init (env : InitEnv) (vm : variables_map) (st0 : WalletMembers) : InitResult :=
  match daemonChoice env (handle_command_line vm st0) with
  | InitResult.passed st => walletChoice env st
  | other => other

/-- A console session for concrete runs: no input is typed and the daemon
address, if any, parses to the local node. -/
def sampleInitEnv : InitEnv :=
  { parseUrlAddress := fun _ => some (true, "localhost", 30000)
    getFeeAddress := fun _ _ => ""
    stdin := [] }

/-- The command line `--generate-new-wallet a.wallet --wallet-file b.wallet`. -/
def bothWalletArguments : variables_map :=
  { wallet_file := "b.wallet"
    generate_new_wallet := "a.wallet"
    daemon_address := ""
    daemon_host := ""
    daemon_port := 0
    exit_after_generate := false }

end simple_wallet
end CryptoNote

namespace CryptoNote
namespace simple_wallet

/-- A call that `simple_wallet::reset` makes on `m_wallet`:
`syncAll(syncWalletFromZero, height)`, `reset()` (`resetFrom none`) or
`reset(height)` (`resetFrom (some height)`). -/
inductive WalletCall where
  | syncAll (syncWalletFromZero : Bool) (height : Nat)
  | resetFrom (height : Option Nat)
  deriving Repr, DecidableEq

/-- The value of a `bool` in an integer comparison. -/
def boolValue (b : Bool) : Nat := if b then 1 else 0

/-- The handler `simple_wallet::reset(args)`: its return value and the calls it
makes on the wallet, in order.  `lastLocalBlockHeight` is
`m_node->getLastLocalBlockHeight()`.  The two comparisons are those of the
source, `ok <= ...` and `ok > ...`, on the flag `ok` returned by
`Common::fromString`.  The wait for `m_walletSynchronized` before `return true`
is left out. -/
def reset (fromString : String → Option Nat) (lastLocalBlockHeight : Nat)
    (args : List String) : Bool × List WalletCall :=
  match args with
  | [] => (true, [WalletCall.syncAll true 0, WalletCall.resetFrom none])
  | arg0 :: _ =>
    let parsed := fromString arg0
    let ok : Bool := parsed.isSome
    let height : Nat := parsed.getD 0
    if ok && decide (boolValue ok ≤ lastLocalBlockHeight) then
      (true, [WalletCall.syncAll true height, WalletCall.resetFrom (some height)])
    else if boolValue ok > lastLocalBlockHeight then (false, [])
    else (true, [])

end simple_wallet
end CryptoNote

namespace DaemonCommandsHandler

/-- The queries `print_stat` sends to the core: `getDaemonHeight()`, the height
of the block with a given hash text (`parse_hash256` followed by
`getBlockHeight`, `none` when either fails), `coinsEmittedAtHeight`,
`depositAmountAtHeight` and `difficultyAtHeight`. -/
structure StatCore where
  getDaemonHeight : Nat
  heightOfHash : String → Option Nat
  coinsEmittedAtHeight : Nat → Nat
  depositAmountAtHeight : Nat → Nat
  difficultyAtHeight : Nat → Nat

/-- The amounts `print_stat` prints.  The two percentages are left out: they
come from `calculatePercent`, which works in floating point. -/
structure StatReport where
  height : Nat
  difficulty : Nat
  totalCoinsInNetwork : Nat
  totalCoinsOnDeposits : Nat
  amountOfActiveCoins : Nat
  deriving Repr, DecidableEq

/-- The second half of `print_stat`, for the height it settled on;
`amountOfActiveCoins` is a `uint64_t` difference, taken modulo `2 ^ 64`. -/
def statAtHeight (core : StatCore) (height : Nat) : StatReport :=
  let totalCoinsInNetwork := core.coinsEmittedAtHeight height
  let totalCoinsOnDeposits := core.depositAmountAtHeight height
  let amountOfActiveCoins := (totalCoinsInNetwork + 2 ^ 64 - totalCoinsOnDeposits) % 2 ^ 64
  { height := height
    difficulty := core.difficultyAtHeight height
    totalCoinsInNetwork := totalCoinsInNetwork
    totalCoinsOnDeposits := totalCoinsOnDeposits
    amountOfActiveCoins := amountOfActiveCoins }

/-- The handler `print_stat(args)`: its return value and what it prints, if
anything.  `maxHeight` is the `uint32_t` value of `getDaemonHeight() - 1`;
`lexical_cast` stands for `boost::lexical_cast<uint32_t>` (`none`: it throws
`bad_lexical_cast`, and the argument is then read as a block hash). -/
def print_stat (lexical_cast : String → Option Nat) (core : StatCore)
    (args : List String) : Bool × Option StatReport :=
  let maxHeight := (core.getDaemonHeight + 2 ^ 32 - 1) % 2 ^ 32
  let chosen : Option Nat :=
    match args with
    | [] => some maxHeight
    | front :: _ =>
      let parsed : Option Nat :=
        match lexical_cast front with
        | some height => some height
        | none => core.heightOfHash front
      match parsed with
      | none => none
      | some height => if height > maxHeight then some maxHeight else some height
  match chosen with
  | none => (false, none)
  | some height => (true, some (statAtHeight core height))

/-- A core for concrete runs: 100 blocks, 1000 atomic units emitted per block,
300 on deposit at every height. -/
def sampleStatCore : StatCore :=
  { getDaemonHeight := 100
    heightOfHash := fun _ => none
    coinsEmittedAtHeight := fun h => if h < 100 then 1000 * (h + 1) else 100000
    depositAmountAtHeight := fun _ => 300
    difficultyAtHeight := fun _ => 5000 }

end DaemonCommandsHandler

/-! Theorems about the definitions above. -/

namespace CryptoNote

theorem solveTimes_length (ts : List Nat) : (solveTimes ts).length = ts.length - 1 := by
  induction ts with
  | nil => rfl
  | cons a rest ih =>
    cases rest with
    | nil => rfl
    | cons b rest2 =>
      simp only [solveTimes, List.length_cons, ih]
      omega

/-- C1: `MINIMUM_FEE` is exactly 100 atomic units, which is 0.001 coin for
`COIN = 100000`; a fee of 99 is below `MINIMUM_FEE`, a fee of 100 is not. -/
theorem C1_minimum_fee_floor :
    parameters.MINIMUM_FEE = 100 ∧ parameters.COIN = 100000 ∧
    1000 * parameters.MINIMUM_FEE = parameters.COIN ∧
    99 < parameters.MINIMUM_FEE ∧ ¬ (100 < parameters.MINIMUM_FEE) ∧
    (∀ fee : Nat, fee < parameters.MINIMUM_FEE ↔ fee ≤ 99) := by
  refine ⟨rfl, rfl, rfl, by decide, by decide, ?_⟩
  intro fee
  unfold parameters.MINIMUM_FEE
  omega

/-- C3: `CRYPTONOTE_MEMPOOL_TX_LIVETIME` is exactly 12 hours (43200 seconds):
for every insertion time `T`, `T + 1h` is before `T + TTL` and `T + 13h` is
after it. -/
theorem C3_mempool_livetime_twelve_hours :
    parameters.CRYPTONOTE_MEMPOOL_TX_LIVETIME = 43200 ∧
    parameters.CRYPTONOTE_MEMPOOL_TX_LIVETIME = 12 * 3600 ∧
    ∀ T : Nat, T + 1 * 3600 < T + parameters.CRYPTONOTE_MEMPOOL_TX_LIVETIME ∧
      T + parameters.CRYPTONOTE_MEMPOOL_TX_LIVETIME < T + 13 * 3600 := by
  refine ⟨rfl, rfl, ?_⟩
  intro T
  unfold parameters.CRYPTONOTE_MEMPOOL_TX_LIVETIME
  omega

/-- C5: the time-to-live of transactions whose origin was a detached block is
strictly greater than the standard pool time-to-live, and both are smaller than
the forget period `CRYPTONOTE_NUMBER_OF_PERIODS_TO_FORGET_TX_DELETED_FROM_POOL *
CRYPTONOTE_MEMPOOL_TX_LIVETIME`. -/
theorem C5_alt_block_livetime_extended :
    parameters.CRYPTONOTE_MEMPOOL_TX_LIVETIME <
      parameters.CRYPTONOTE_MEMPOOL_TX_FROM_ALT_BLOCK_LIVETIME ∧
    parameters.CRYPTONOTE_MEMPOOL_TX_LIVETIME <
      parameters.CRYPTONOTE_NUMBER_OF_PERIODS_TO_FORGET_TX_DELETED_FROM_POOL *
        parameters.CRYPTONOTE_MEMPOOL_TX_LIVETIME ∧
    parameters.CRYPTONOTE_MEMPOOL_TX_FROM_ALT_BLOCK_LIVETIME <
      parameters.CRYPTONOTE_NUMBER_OF_PERIODS_TO_FORGET_TX_DELETED_FROM_POOL *
        parameters.CRYPTONOTE_MEMPOOL_TX_LIVETIME := by
  decide

/-- C6: `DIFFICULTY_WINDOW_V3` is 60 and `DIFFICULTY_BLOCKS_COUNT` is
`DIFFICULTY_WINDOW_V3 + 1 = 61`; a window of timestamps yields
`DIFFICULTY_WINDOW_V3` solve-times between consecutive blocks exactly when it
holds `DIFFICULTY_BLOCKS_COUNT` timestamps. -/
theorem C6_lwma3_window :
    parameters.DIFFICULTY_WINDOW_V3 = 60 ∧
    parameters.DIFFICULTY_BLOCKS_COUNT = parameters.DIFFICULTY_WINDOW_V3 + 1 ∧
    parameters.DIFFICULTY_BLOCKS_COUNT = 61 ∧
    ∀ ts : List Nat,
      ((solveTimes ts).length = parameters.DIFFICULTY_WINDOW_V3 ↔
        ts.length = parameters.DIFFICULTY_BLOCKS_COUNT) := by
  refine ⟨rfl, rfl, rfl, ?_⟩
  intro ts
  rw [solveTimes_length]
  unfold parameters.DIFFICULTY_BLOCKS_COUNT parameters.DIFFICULTY_WINDOW_V3
  omega

namespace simple_wallet

theorem mergeAliases_fee (env : WalletEnv) (cmd0 cmd : TransferCommand)
    (h : mergeAliases env cmd0 = some cmd) : cmd.fee = cmd0.fee := by
  unfold mergeAliases at h
  split at h
  · cases h
  · split at h
    · cases h; rfl
    · split at h
      · cases h; rfl
      · cases h

theorem forced_fee_eq_max (fee : Nat) :
    (if fee < parameters.MINIMUM_FEE then parameters.MINIMUM_FEE else fee) =
      max fee parameters.MINIMUM_FEE := by
  split
  · rw [max_eq_right (by omega)]
  · rw [max_eq_left (by omega)]

theorem transfer_sends (env : WalletEnv) (args : List String) (cmd0 cmd : TransferCommand)
    (hparse : env.parseArguments args = some cmd0)
    (hmerge : mergeAliases env cmd0 = some cmd)
    (hconfirm : env.confirmTransaction cmd (decide (cmd.dsts.length > 1)) = true) :
    ∃ call, transfer env args = (true, some call) ∧
      call.fee = max cmd0.fee parameters.MINIMUM_FEE ∧
      call.mixIn = parameters.MINIMUM_MIXIN ∧ call.transfers = cmd.dsts := by
  unfold transfer
  simp only [hparse, hmerge, hconfirm, Bool.not_true, Bool.false_eq_true, if_false]
  refine ⟨_, rfl, ?_, rfl, rfl⟩
  simp only [forced_fee_eq_max, mergeAliases_fee env cmd0 cmd hmerge]

theorem transfer_sent_fee (env : WalletEnv) (args : List String) (call : SendTransactionCall)
    (h : (transfer env args).2 = some call) :
    ∃ cmd0, env.parseArguments args = some cmd0 ∧
      call.fee = max cmd0.fee parameters.MINIMUM_FEE := by
  unfold transfer at h
  split at h
  · cases h
  · rename_i cmd0 hparse
    split at h
    · cases h
    · rename_i cmd hmerge
      simp only at h
      split at h
      · cases h
      · simp only [Option.some.injEq] at h
        refine ⟨cmd0, hparse, ?_⟩
        rw [← h]
        simp only [forced_fee_eq_max, mergeAliases_fee env cmd0 cmd hmerge]

/-- C2: for every transfer command that parses and that the user confirms
(the alias stage is passed and `confirmTransaction` answers yes),
`simple_wallet::transfer` calls `sendTransaction` with the fee
`max(cmd.fee, MINIMUM_FEE)`; and whatever was parsed, a call of
`sendTransaction` it makes never carries a fee below the minimum fee of 100. -/
theorem C2_transfer_forces_minimum_fee (env : WalletEnv) (args : List String) :
    (∀ cmd0 cmd : TransferCommand,
      env.parseArguments args = some cmd0 →
      mergeAliases env cmd0 = some cmd →
      env.confirmTransaction cmd (decide (cmd.dsts.length > 1)) = true →
      ∃ call, transfer env args = (true, some call) ∧
        call.fee = max cmd0.fee parameters.MINIMUM_FEE) ∧
    (∀ call : SendTransactionCall, (transfer env args).2 = some call →
      (∃ cmd0, env.parseArguments args = some cmd0 ∧
        call.fee = max cmd0.fee parameters.MINIMUM_FEE) ∧
      parameters.MINIMUM_FEE ≤ call.fee ∧ 100 ≤ call.fee) := by
  constructor
  · intro cmd0 cmd hparse hmerge hconfirm
    obtain ⟨call, h1, h2, _⟩ := transfer_sends env args cmd0 cmd hparse hmerge hconfirm
    exact ⟨call, h1, h2⟩
  · intro call h
    obtain ⟨cmd0, hparse, hfee⟩ := transfer_sent_fee env args call h
    have hmin : parameters.MINIMUM_FEE ≤ call.fee := by
      rw [hfee]; exact le_max_right _ _
    exact ⟨⟨cmd0, hparse, hfee⟩, hmin, hmin⟩

/-- Witness of C2: in the sample session the parsed fee is 10 and the call of
`sendTransaction` carries the fee 100. -/
theorem C2_transfer_forces_minimum_fee_witness :
    ∃ call, transfer sampleWalletEnv ["5", "ethiLsample", "5"] = (true, some call) ∧
      call.fee = max sampleCommand.fee parameters.MINIMUM_FEE :=
  (C2_transfer_forces_minimum_fee sampleWalletEnv ["5", "ethiLsample", "5"]).1
    sampleCommand sampleCommand rfl rfl rfl

end simple_wallet

end CryptoNote

namespace DaemonCommandsHandler

theorem print_bc_nil (fromString : String → Option Nat) (H : Nat) :
    print_bc fromString H [] = (false, none) := rfl

theorem print_bc_bad_start (fromString : String → Option Nat) (H : Nat) (arg0 : String)
    (rest : List String) (h : fromString arg0 = none) :
    print_bc fromString H (arg0 :: rest) = (false, none) := by
  simp only [print_bc, h]

theorem print_bc_bad_end (fromString : String → Option Nat) (H : Nat) (arg0 arg1 : String)
    (rest : List String) (h : fromString arg1 = none) :
    print_bc fromString H (arg0 :: arg1 :: rest) = (false, none) := by
  cases h0 : fromString arg0 with
  | none => simp only [print_bc, h0]
  | some s => simp only [print_bc, h0, h]

theorem print_bc_one (fromString : String → Option Nat) (H : Nat) (arg0 : String) (s : Nat)
    (h : fromString arg0 = some s) :
    print_bc fromString H [arg0] = if s < H then (true, some (s, H)) else (false, none) := by
  simp only [print_bc, h, if_true, gt_iff_lt, lt_irrefl, if_false]
  by_cases hs : s < H
  · simp only [hs, if_true, Nat.not_le.mpr hs, if_false]
  · simp only [hs, if_false, Nat.not_lt.mp hs, if_true]

theorem print_bc_two (fromString : String → Option Nat) (H : Nat) (arg0 arg1 : String)
    (rest : List String) (s e0 : Nat)
    (h0 : fromString arg0 = some s) (h1 : fromString arg1 = some e0) :
    print_bc fromString H (arg0 :: arg1 :: rest) =
      if s < (if e0 = 0 then H else e0) ∧ (if e0 = 0 then H else e0) ≤ H then
        (true, some (s, if e0 = 0 then H else e0))
      else (false, none) := by
  simp only [print_bc, h0, h1, gt_iff_lt]
  generalize (if e0 = 0 then H else e0) = e
  by_cases he : H < e
  · have : ¬ (s < e ∧ e ≤ H) := by omega
    simp only [he, if_true, this, if_false]
  · by_cases hs : e ≤ s
    · have : ¬ (s < e ∧ e ≤ H) := by omega
      simp only [he, if_false, hs, if_true, this]
    · have : s < e ∧ e ≤ H := by omega
      simp only [he, if_false, hs, this, and_self, if_true]

theorem print_bc_call_sound (fromString : String → Option Nat) (H : Nat) (args : List String)
    (s e : Nat) (h : (print_bc fromString H args).2 = some (s, e)) :
    s < e ∧ e ≤ H := by
  match args with
  | [] => rw [print_bc_nil] at h; cases h
  | [arg0] =>
    cases h0 : fromString arg0 with
    | none => rw [print_bc_bad_start _ _ _ _ h0] at h; cases h
    | some s0 =>
      rw [print_bc_one _ _ _ _ h0] at h
      split at h
      · simp only [Option.some.injEq, Prod.mk.injEq] at h
        omega
      · cases h
  | arg0 :: arg1 :: rest =>
    cases h0 : fromString arg0 with
    | none => rw [print_bc_bad_start _ _ _ _ h0] at h; cases h
    | some s0 =>
      cases h1 : fromString arg1 with
      | none => rw [print_bc_bad_end _ _ _ _ _ h1] at h; cases h
      | some e0 =>
        rw [print_bc_two _ _ _ _ _ _ _ h0 h1] at h
        generalize (if e0 = 0 then H else e0) = e1 at h
        by_cases hc : s0 < e1 ∧ e1 ≤ H
        · rw [if_pos hc] at h
          simp only [Option.some.injEq, Prod.mk.injEq] at h
          obtain ⟨hs, he⟩ := h
          subst hs
          subst he
          exact hc
        · rw [if_neg hc] at h
          cases h

theorem print_bc_ret_iff (fromString : String → Option Nat) (H : Nat) (args : List String) :
    (print_bc fromString H args).1 = true ↔ (print_bc fromString H args).2.isSome = true := by
  match args with
  | [] => rw [print_bc_nil]; simp
  | [arg0] =>
    cases h0 : fromString arg0 with
    | none => rw [print_bc_bad_start _ _ _ _ h0]; simp
    | some s0 => rw [print_bc_one _ _ _ _ h0]; split <;> simp
  | arg0 :: arg1 :: rest =>
    cases h0 : fromString arg0 with
    | none => rw [print_bc_bad_start _ _ _ _ h0]; simp
    | some s0 =>
      cases h1 : fromString arg1 with
      | none => rw [print_bc_bad_end _ _ _ _ _ h1]; simp
      | some e0 =>
        rw [print_bc_two _ _ _ _ _ _ _ h0 h1]
        generalize (if e0 = 0 then H else e0) = e1
        split <;> simp

/-- C8: for every argument list and every daemon height `H`, `print_bc` calls
`core.print_blockchain(start, end)` only with `start < end ≤ H`, where `end` is
`H` when the end argument is omitted or is 0; it returns true exactly when it
makes that call, and returns false without calling the core when there is no
argument, when an index does not parse, when `end > H` or when
`end ≤ start`. -/
theorem C8_print_bc_range (fromString : String → Option Nat) (H : Nat) :
    (∀ args s e, (print_bc fromString H args).2 = some (s, e) → s < e ∧ e ≤ H) ∧
    (∀ args, (print_bc fromString H args).1 = true ↔
      (print_bc fromString H args).2.isSome = true) ∧
    print_bc fromString H [] = (false, none) ∧
    (∀ arg0 rest, fromString arg0 = none →
      print_bc fromString H (arg0 :: rest) = (false, none)) ∧
    (∀ arg0 arg1 rest, fromString arg1 = none →
      print_bc fromString H (arg0 :: arg1 :: rest) = (false, none)) ∧
    (∀ arg0 s, fromString arg0 = some s →
      print_bc fromString H [arg0] =
        if s < H then (true, some (s, H)) else (false, none)) ∧
    (∀ arg0 arg1 rest s, fromString arg0 = some s → fromString arg1 = some 0 →
      print_bc fromString H (arg0 :: arg1 :: rest) =
        if s < H then (true, some (s, H)) else (false, none)) ∧
    (∀ arg0 arg1 rest s e, fromString arg0 = some s → fromString arg1 = some e → e ≠ 0 →
      print_bc fromString H (arg0 :: arg1 :: rest) =
        if s < e ∧ e ≤ H then (true, some (s, e)) else (false, none)) := by
  refine ⟨?_, ?_, rfl, ?_, ?_, ?_, ?_, ?_⟩
  · intro args s e h
    exact print_bc_call_sound fromString H args s e h
  · intro args
    exact print_bc_ret_iff fromString H args
  · intro arg0 rest h
    exact print_bc_bad_start fromString H arg0 rest h
  · intro arg0 arg1 rest h
    exact print_bc_bad_end fromString H arg0 arg1 rest h
  · intro arg0 s h
    exact print_bc_one fromString H arg0 s h
  · intro arg0 arg1 rest s h0 h1
    rw [print_bc_two fromString H arg0 arg1 rest s 0 h0 h1]
    simp only [if_true, le_refl, and_true]
  · intro arg0 arg1 rest s e h0 h1 hne
    rw [print_bc_two fromString H arg0 arg1 rest s e h0 h1]
    simp only [hne, if_false]

theorem set_log_parsed (fromString : String → Option Nat) (arg0 : String) (v : Nat)
    (h : fromString arg0 = some v) (hv : v < 2 ^ 16) :
    set_log fromString [arg0] =
      (true, if v ≤ 4 then some (v + 1) else if v = 65535 then some 0 else none) := by
  simp only [set_log, h, Logging.TRACE]
  by_cases h4 : v ≤ 4
  · have h1 : (v + 1) % 2 ^ 16 = v + 1 := Nat.mod_eq_of_lt (by omega)
    have h2 : ¬ (v + 1 > 5) := by omega
    simp only [h1, h2, h4, if_true, if_false]
  · by_cases hmax : v = 65535
    · subst hmax
      simp
    · have h1 : (v + 1) % 2 ^ 16 = v + 1 := Nat.mod_eq_of_lt (by omega)
      have h2 : v + 1 > 5 := by omega
      simp only [h1, h2, h4, hmax, if_true, if_false]

/-- Witness of C8: with a daemon height of 100, `print_bc 5 50` prints the
range from 5 to 50. -/
theorem C8_print_bc_range_witness :
    print_bc (Common.fromStringDec 32) 100 ["5", "50"] =
      if 5 < 50 ∧ 50 ≤ 100 then (true, some (5, 50)) else (false, none) :=
  (C8_print_bc_range (Common.fromStringDec 32) 100).2.2.2.2.2.2.2
    "5" "50" [] 5 50 (by decide) (by decide) (by decide)

/-- C9 (code at the failing input): `set_log 65535` passes the range check of
the daemon, because the `uint16_t` increment wraps to 0, and sets the maximum
log level to 0; the wallet's `set_log` rejects the same input.  For a parsed
`uint16_t` value `v` the daemon changes the level exactly when `v ≤ 4` (to
`v + 1`) or `v = 65535` (to 0). -/
theorem C9_set_log_wraps_at_65535 :
    Common.fromStringDec 16 "65535" = some 65535 ∧
    set_log (Common.fromStringDec 16) ["65535"] = (true, some 0) ∧
    levelAfterSetLog (Common.fromStringDec 16) ["65535"] 3 = 0 ∧
    CryptoNote.simple_wallet.set_log (Common.fromStringDec 16) ["65535"] = (true, none) ∧
    (∀ (fromString : String → Option Nat) (arg0 : String) (v : Nat),
      fromString arg0 = some v → v < 2 ^ 16 →
      set_log fromString [arg0] =
        (true, if v ≤ 4 then some (v + 1) else if v = 65535 then some 0 else none)) := by
  refine ⟨by decide, by decide, by decide, by decide, ?_⟩
  intro fromString arg0 v h hv
  exact set_log_parsed fromString arg0 v h hv

/-- C10: when the first argument of `start_mining` is a valid address, the
miner is started with the second argument as thread count if that argument is
present, parses and is greater than 0, and with 1 thread otherwise (absent,
unparseable or 0); it is never started with 0 threads, and it is not started
when the argument list is empty or the address is invalid.  The handler returns
true in every case. -/
theorem C10_start_mining_threads {α : Type} (parseAccountAddressString : String → Option α)
    (fromString : String → Option Nat) :
    (∀ args adr n,
      (start_mining parseAccountAddressString fromString args).2 = some (adr, n) → 0 < n) ∧
    (∀ args, (start_mining parseAccountAddressString fromString args).1 = true) ∧
    start_mining parseAccountAddressString fromString [] = (true, none) ∧
    (∀ front rest, parseAccountAddressString front = none →
      start_mining parseAccountAddressString fromString (front :: rest) = (true, none)) ∧
    (∀ front adr, parseAccountAddressString front = some adr →
      start_mining parseAccountAddressString fromString [front] = (true, some (adr, 1))) ∧
    (∀ front arg1 rest adr, parseAccountAddressString front = some adr →
      fromString arg1 = none →
      start_mining parseAccountAddressString fromString (front :: arg1 :: rest) =
        (true, some (adr, 1))) ∧
    (∀ front arg1 rest adr, parseAccountAddressString front = some adr →
      fromString arg1 = some 0 →
      start_mining parseAccountAddressString fromString (front :: arg1 :: rest) =
        (true, some (adr, 1))) ∧
    (∀ front arg1 rest adr n, parseAccountAddressString front = some adr →
      fromString arg1 = some n → 0 < n →
      start_mining parseAccountAddressString fromString (front :: arg1 :: rest) =
        (true, some (adr, n))) := by
  refine ⟨?_, ?_, rfl, ?_, ?_, ?_, ?_, ?_⟩
  · intro args adr n h
    unfold start_mining at h
    split at h
    · cases h
    · split at h
      · cases h
      · simp only [Option.some.injEq, Prod.mk.injEq] at h
        obtain ⟨_, hn⟩ := h
        rw [← hn]
        split
        · exact Nat.one_pos
        · split
          · exact Nat.one_pos
          · split
            · assumption
            · exact Nat.one_pos
  · intro args
    unfold start_mining
    split
    · rfl
    · split <;> rfl
  · intro front rest h
    simp only [start_mining, h]
  · intro front adr h
    simp only [start_mining, h]
  · intro front arg1 rest adr h h1
    simp only [start_mining, h, h1]
  · intro front arg1 rest adr h h1
    simp only [start_mining, h, h1, lt_irrefl, if_false]
  · intro front arg1 rest adr n h h1 hn
    simp only [start_mining, h, h1, hn, if_true]

/-- Witness of C10: `start_mining ethiLsample 4` starts the miner with 4
threads. -/
theorem C10_start_mining_threads_witness :
    start_mining CryptoNote.sampleAddressParser (Common.fromStringDec 64)
      ["ethiLsample", "4"] = (true, some ("ethiLsample", 4)) :=
  (C10_start_mining_threads CryptoNote.sampleAddressParser
    (Common.fromStringDec 64)).2.2.2.2.2.2.2
    "ethiLsample" "4" [] "ethiLsample" 4 (by decide) (by decide) (by decide)

end DaemonCommandsHandler

namespace CryptoNote
namespace ArgumentReader

theorem next_of_lt {α : Type} (r : ArgumentReader α) (h : r.m_cur < r.m_end) :
    (next r).1 = Except.ok (r.args.get ⟨r.m_cur, lt_of_lt_of_le h r.end_le_size⟩) ∧
    (next r).2.m_cur = r.m_cur + 1 ∧ (next r).2.m_end = r.m_end ∧
    (next r).2.args = r.args ∧ (next r).2.m_begin = r.m_begin := by
  have hne : ¬ r.m_cur = r.m_end := by omega
  unfold next
  rw [dif_neg hne]
  exact ⟨rfl, rfl, rfl, rfl, rfl⟩

theorem next_of_eq {α : Type} (r : ArgumentReader α) (h : r.m_cur = r.m_end) :
    next r = (Except.error "unexpected end of arguments", r) := by
  unfold next
  rw [dif_pos h]

theorem nextN_spec {α : Type} (k : Nat) :
    ∀ r : ArgumentReader α, r.m_cur + k ≤ r.m_end →
      (nextN k r).1 = ((r.args.drop r.m_cur).take k).map Except.ok ∧
      (nextN k r).2.m_cur = r.m_cur + k ∧ (nextN k r).2.m_end = r.m_end ∧
      (nextN k r).2.args = r.args := by
  induction k with
  | zero =>
    intro r _
    simp [nextN]
  | succ k ih =>
    intro r h
    have hlt : r.m_cur < r.m_end := by omega
    obtain ⟨h1, h2, h3, h4, _⟩ := next_of_lt r hlt
    have hstep : (next r).2.m_cur + k ≤ (next r).2.m_end := by
      rw [h2, h3]; omega
    obtain ⟨i1, i2, i3, i4⟩ := ih (next r).2 hstep
    have hsize : r.m_cur < r.args.length := lt_of_lt_of_le hlt r.end_le_size
    refine ⟨?_, ?_, ?_, ?_⟩
    · rw [List.drop_eq_getElem_cons hsize, List.take_succ_cons, List.map_cons]
      simp only [nextN, i1, h1, h2, h4]
      rfl
    · simp only [nextN, i2, h2]; omega
    · simp only [nextN, i3, h3]
    · simp only [nextN, i4, h4]

theorem eof_iff {α : Type} (r : ArgumentReader α) :
    (eof r).1 = true ↔ r.m_cur = r.m_end := by
  simp [eof]

/-- C11: a reader built over a sequence of `n` arguments returns them in their
original order on its first `n` calls of `next()`; `eof()` is false before each
of these calls and true after the `n`-th, and a call of `eof()` leaves the
reader as it was. -/
theorem C11_reader_yields_arguments_in_order {α : Type} (xs : List α) :
    (nextN xs.length (ofList xs)).1 = xs.map Except.ok ∧
    (∀ k, k ≤ xs.length → (nextN k (ofList xs)).1 = (xs.take k).map Except.ok) ∧
    (∀ k, k < xs.length → (eof (nextN k (ofList xs)).2).1 = false) ∧
    (eof (nextN xs.length (ofList xs)).2).1 = true ∧
    (∀ r : ArgumentReader α, (eof r).2 = r) := by
  have key : ∀ k, k ≤ xs.length →
      (nextN k (ofList xs)).1 = (xs.take k).map Except.ok ∧
      (nextN k (ofList xs)).2.m_cur = k ∧ (nextN k (ofList xs)).2.m_end = xs.length := by
    intro k hk
    have h0 : (ofList xs).m_cur + k ≤ (ofList xs).m_end := by
      simp only [ofList]; omega
    obtain ⟨h1, h2, h3, _⟩ := nextN_spec k (ofList xs) h0
    refine ⟨?_, ?_, ?_⟩
    · rw [h1]; simp [ofList]
    · rw [h2]; simp [ofList]
    · rw [h3]; simp [ofList]
  refine ⟨?_, fun k hk => (key k hk).1, ?_, ?_, fun r => rfl⟩
  · rw [(key xs.length (Nat.le_refl _)).1, List.take_length]
  · intro k hk
    obtain ⟨_, h2, h3⟩ := key k (Nat.le_of_lt hk)
    have hne : ¬ (nextN k (ofList xs)).2.m_cur = (nextN k (ofList xs)).2.m_end := by
      rw [h2, h3]; omega
    cases hb : (eof (nextN k (ofList xs)).2).1 with
    | false => rfl
    | true => exact absurd ((eof_iff _).mp hb) hne
  · obtain ⟨_, h2, h3⟩ := key xs.length (Nat.le_refl _)
    exact (eof_iff _).mpr (by rw [h2, h3])

/-- Witness of C11: a reader over three arguments returns the first two on its
first two calls. -/
theorem C11_reader_yields_arguments_in_order_witness :
    (nextN 2 (ofList ["addr", "10", "-p"])).1 =
      (["addr", "10", "-p"].take 2).map Except.ok :=
  (C11_reader_yields_arguments_in_order ["addr", "10", "-p"]).2.1 2 (by decide)

/-- C12: at end of input (`eof()` is true, as for a reader over an empty
sequence) `next()` throws "unexpected end of arguments" and leaves the reader as
it was; in every other state it returns a value, so it fails in no other state
and with no other message. -/
theorem C12_next_fails_exactly_at_eof {α : Type} (r : ArgumentReader α) :
    ((eof r).1 = true → next r = (Except.error "unexpected end of arguments", r)) ∧
    ((eof r).1 = false → ∃ v, (next r).1 = Except.ok v ∧ (next r).2.m_cur = r.m_cur + 1) ∧
    (∀ msg, (next r).1 = Except.error msg →
      (eof r).1 = true ∧ msg = "unexpected end of arguments" ∧ (next r).2 = r) ∧
    (eof (ofList ([] : List α))).1 = true ∧
    next (ofList ([] : List α)) =
      (Except.error "unexpected end of arguments", ofList ([] : List α)) := by
  have hfalse : (eof r).1 = false → r.m_cur < r.m_end := by
    intro hb
    have hne : ¬ r.m_cur = r.m_end := by
      intro he
      rw [(eof_iff r).mpr he] at hb
      cases hb
    have := r.cur_le_end
    omega
  refine ⟨?_, ?_, ?_, ?_, ?_⟩
  · intro hb
    exact next_of_eq r ((eof_iff r).mp hb)
  · intro hb
    obtain ⟨h1, h2, _⟩ := next_of_lt r (hfalse hb)
    exact ⟨_, h1, h2⟩
  · intro msg hmsg
    cases hb : (eof r).1 with
    | false =>
      obtain ⟨h1, _⟩ := next_of_lt r (hfalse hb)
      rw [h1] at hmsg
      cases hmsg
    | true =>
      have hn := next_of_eq r ((eof_iff r).mp hb)
      rw [hn] at hmsg ⊢
      simp only [Except.error.injEq] at hmsg
      exact ⟨rfl, hmsg.symm, rfl⟩
  · rfl
  · rfl

/-- Witness of C12: after its single argument has been read, a reader fails on
the next call and stays where it was. -/
theorem C12_next_fails_exactly_at_eof_witness :
    next (nextN 1 (ofList ["addr"])).2 =
      (Except.error "unexpected end of arguments", (nextN 1 (ofList ["addr"])).2) :=
  (C12_next_fails_exactly_at_eof (nextN 1 (ofList ["addr"])).2).1 (by decide)

end ArgumentReader
end CryptoNote

namespace CommaIterator

theorem intercalate_go_append (sep : String) (l : List String) :
    ∀ a b : String, String.intercalate.go (a ++ b) sep l = a ++ String.intercalate.go b sep l := by
  induction l with
  | nil => intro a b; rfl
  | cons x rest ih =>
    intro a b
    simp only [String.intercalate.go]
    rw [String.append_assoc, String.append_assoc, ih, String.append_assoc]

theorem copy_not_first {T : Type} (put : T → String) (sep : String) (x : List T) :
    ∀ acc : String, copy put x ⟨acc, sep, false⟩ =
      ⟨String.intercalate.go acc sep (x.map put), sep, false⟩ := by
  induction x with
  | nil => intro acc; rfl
  | cons t rest ih =>
    intro acc
    have h := ih (acc ++ sep ++ put t)
    simp only [copy, List.foldl_cons, List.map_cons, String.intercalate.go] at h ⊢
    exact h

theorem copy_new {T : Type} (put : T → String) (os sep : String) (x : List T) :
    (copy put x (new os sep)).os = os ++ String.intercalate sep (x.map put) := by
  cases x with
  | nil => simp [copy, new, String.intercalate]
  | cons t rest =>
    have h := copy_not_first put sep rest (os ++ put t)
    simp only [copy, List.foldl_cons, List.map_cons, String.intercalate] at h ⊢
    have h2 : increment (assign put (dereference (new os sep)) t) = ⟨os ++ put t, sep, false⟩ := rfl
    rw [h2, h, intercalate_go_append]

theorem intercalate_go_length (sep : String) (l : List String) :
    ∀ acc : String, (String.intercalate.go acc sep l).length =
      acc.length + ((l.map String.length).sum + l.length * sep.length) := by
  induction l with
  | nil => intro acc; simp [String.intercalate.go]
  | cons x rest ih =>
    intro acc
    simp only [String.intercalate.go, ih, String.length_append, List.map_cons, List.sum_cons,
      List.length_cons]
    ring

theorem intercalate_length (sep : String) (l : List String) :
    (String.intercalate sep l).length =
      (l.map String.length).sum + (l.length - 1) * sep.length := by
  cases l with
  | nil => simp [String.intercalate]
  | cons x rest =>
    simp only [String.intercalate, intercalate_go_length, List.map_cons, List.sum_cons,
      List.length_cons, Nat.add_sub_cancel]
    ring

/-- C13: copying `x1 .. xn` through `CommaIterator(os, sep)` appends exactly
`x1 sep x2 sep ... sep xn` to the stream: nothing for the empty sequence, the
first element without a separator before it, and one separator before every
later element, so the separator is written `n - 1` times and never after the
last element; increment and dereference write nothing. -/
theorem C13_comma_iterator_joins {T : Type} (put : T → String) (os sep : String) (x : List T) :
    (copy put x (new os sep)).os = os ++ String.intercalate sep (x.map put) ∧
    (copy put ([] : List T) (new os sep)).os = os ∧
    (∀ a : T, (copy put [a] (new os sep)).os = os ++ put a) ∧
    (∀ (a b : T) (rest : List T), (copy put (a :: b :: rest) (new os sep)).os =
      os ++ (put a ++ (sep ++ (copy put (b :: rest) (new "" sep)).os))) ∧
    (copy put x (new os sep)).os.length =
      os.length + ((x.map (fun t => (put t).length)).sum + (x.length - 1) * sep.length) ∧
    (∀ it : CommaIterator, increment it = it ∧ dereference it = it) := by
  refine ⟨copy_new put os sep x, ?_, ?_, ?_, ?_, fun it => ⟨rfl, rfl⟩⟩
  · rw [copy_new]; simp [String.intercalate]
  · intro a
    rw [copy_new]; simp [String.intercalate, String.intercalate.go]
  · intro a b rest
    rw [copy_new, copy_new]
    simp only [List.map_cons, String.intercalate, String.intercalate.go]
    rw [String.append_assoc, intercalate_go_append, intercalate_go_append]
    simp
  · rw [copy_new, String.length_append, intercalate_length]
    simp [List.map_map, Function.comp_def]

end CommaIterator

namespace CryptoNote
namespace simple_wallet

theorem utf8Size_of_hex (c : Char) (h : isLowerHexChar c = true) : c.utf8Size = 1 := by
  have hle : c.toNat ≤ 127 := by
    simp only [isLowerHexChar, Bool.or_eq_true, Bool.and_eq_true, decide_eq_true_eq] at h
    omega
  unfold Char.utf8Size
  have : c.val ≤ 127 := by
    rw [UInt32.le_def]
    exact hle
  simp [this]

theorem utf8ByteSize_go_of_hex (cs : List Char) (h : ∀ c ∈ cs, isLowerHexChar c = true) :
    String.utf8ByteSize.go cs = cs.length := by
  induction cs with
  | nil => rfl
  | cons c rest ih =>
    have h1 := utf8Size_of_hex c (h c (List.mem_cons_self _ _))
    have h2 := ih (fun d hd => h d (List.mem_cons_of_mem _ hd))
    simp only [String.utf8ByteSize.go, h1, h2, List.length_cons]

theorem utf8ByteSize_of_hex (s : String) (h : ∀ c ∈ s.toList, isLowerHexChar c = true) :
    s.utf8ByteSize = s.length := by
  cases s with
  | mk cs => exact utf8ByteSize_go_of_hex cs h

theorem payment_id_check_iff (paymentID : String) :
    (paymentID.utf8ByteSize ≠ 64 || !hexChars_match paymentID) = false ↔
      validPaymentId paymentID := by
  simp only [Bool.or_eq_false_iff, Bool.not_eq_false', decide_eq_false_iff_not, ne_eq,
    not_not, hexChars_match, Bool.and_eq_true, Bool.not_eq_true', List.all_eq_true,
    validPaymentId]
  constructor
  · rintro ⟨hsize, _, hall⟩
    exact ⟨by rw [← utf8ByteSize_of_hex paymentID hall]; exact hsize, hall⟩
  · rintro ⟨hlen, hall⟩
    refine ⟨by rw [utf8ByteSize_of_hex paymentID hall]; exact hlen, ?_, hall⟩
    cases hl : paymentID.toList with
    | nil =>
      have hlen0 : paymentID.length = paymentID.toList.length := rfl
      rw [hl] at hlen0
      simp only [List.length_nil] at hlen0
      omega
    | cons c rest => rfl

theorem create_integrated_cons (getAddress : String)
    (parseAccountAddressString : String → Option String)
    (encode_addr : Nat → String → String) (paymentID : String) (rest : List String) :
    create_integrated getAddress parseAccountAddressString encode_addr (paymentID :: rest) =
      if (paymentID.utf8ByteSize ≠ 64 || !hexChars_match paymentID) = true then (true, none)
      else
        match parseAccountAddressString getAddress with
        | none => (true, none)
        | some keys =>
          (true, some (encode_addr parameters.CRYPTONOTE_PUBLIC_ADDRESS_BASE58_PREFIX
            (paymentID ++ keys))) := rfl

/-- C14: `create_integrated <payment_id>` prints an integrated address only if
the payment ID is exactly 64 characters long and made of the characters `0-9`
and `a-f` only; for every other first argument and for an empty argument list it
prints no address, and it returns true in every case. -/
theorem C14_create_integrated_checks_payment_id (getAddress : String)
    (parseAccountAddressString : String → Option String)
    (encode_addr : Nat → String → String) :
    (∀ args, (create_integrated getAddress parseAccountAddressString encode_addr args).1 = true) ∧
    (∀ args address,
      (create_integrated getAddress parseAccountAddressString encode_addr args).2 = some address →
      ∃ paymentID rest, args = paymentID :: rest ∧ validPaymentId paymentID) ∧
    create_integrated getAddress parseAccountAddressString encode_addr [] = (true, none) ∧
    (∀ paymentID rest, ¬ validPaymentId paymentID →
      create_integrated getAddress parseAccountAddressString encode_addr (paymentID :: rest) =
        (true, none)) ∧
    (∀ paymentID rest keys, validPaymentId paymentID →
      parseAccountAddressString getAddress = some keys →
      create_integrated getAddress parseAccountAddressString encode_addr (paymentID :: rest) =
        (true, some (encode_addr parameters.CRYPTONOTE_PUBLIC_ADDRESS_BASE58_PREFIX
          (paymentID ++ keys)))) := by
  have hbad : ∀ paymentID rest, ¬ validPaymentId paymentID →
      create_integrated getAddress parseAccountAddressString encode_addr (paymentID :: rest) =
        (true, none) := by
    intro paymentID rest hnot
    rw [create_integrated_cons]
    have hc : (paymentID.utf8ByteSize ≠ 64 || !hexChars_match paymentID) = true := by
      cases hb : (paymentID.utf8ByteSize ≠ 64 || !hexChars_match paymentID) with
      | true => rfl
      | false => exact absurd ((payment_id_check_iff paymentID).mp hb) hnot
    rw [if_pos hc]
  refine ⟨?_, ?_, rfl, hbad, ?_⟩
  · intro args
    cases args with
    | nil => rfl
    | cons paymentID rest =>
      rw [create_integrated_cons]
      split
      · rfl
      · split <;> rfl
  · intro args address h
    cases args with
    | nil => cases h
    | cons paymentID rest =>
      refine ⟨paymentID, rest, rfl, ?_⟩
      by_contra hnot
      rw [hbad paymentID rest hnot] at h
      cases h
  · intro paymentID rest keys hvalid hkeys
    rw [create_integrated_cons]
    have hc : ¬ (paymentID.utf8ByteSize ≠ 64 || !hexChars_match paymentID) = true := by
      rw [(payment_id_check_iff paymentID).mpr hvalid]
      exact Bool.false_ne_true
    rw [if_neg hc, hkeys]

/-- Witness of C14: a payment ID of 64 lower-case hex digits yields an
integrated address. -/
theorem C14_create_integrated_checks_payment_id_witness :
    create_integrated "ethiLsample" sampleAddressParser sampleEncodeAddr
      ["0123456789abcdef0123456789abcdef0123456789abcdef0123456789abcdef"] =
      (true, some (sampleEncodeAddr parameters.CRYPTONOTE_PUBLIC_ADDRESS_BASE58_PREFIX
        ("0123456789abcdef0123456789abcdef0123456789abcdef0123456789abcdef" ++
          "ethiLsample"))) :=
  (C14_create_integrated_checks_payment_id "ethiLsample" sampleAddressParser
    sampleEncodeAddr).2.2.2.2
    "0123456789abcdef0123456789abcdef0123456789abcdef0123456789abcdef" [] "ethiLsample"
    ⟨by decide, by decide⟩ (by decide)

end simple_wallet
end CryptoNote

namespace CryptoNote
namespace simple_wallet

theorem walletGuard_import_empty (st : WalletMembers) (h : st.m_import_new = "") :
    walletGuard st = InitResult.passed st := by
  unfold walletGuard
  rw [h]
  have he : "".isEmpty = true := by decide
  simp [he]

theorem walletGuard_generate_empty (st : WalletMembers) (h : st.m_generate_new.isEmpty = true) :
    walletGuard st = InitResult.passed st := by
  unfold walletGuard
  rw [h]
  simp

theorem askWallet_ne_simultaneous (stdin : List String) (st : WalletMembers) :
    askWallet stdin st ≠ InitResult.refused simultaneousMessage := by
  unfold askWallet
  split
  · intro h; cases h
  · split
    · intro h
      simp only [InitResult.refused.injEq] at h
      revert h
      decide
    · split
      · intro h; cases h
      · split_ifs <;> intro h <;> cases h

theorem askWallet_passed (stdin : List String) (st st1 : WalletMembers)
    (h : askWallet stdin st = InitResult.passed st1) :
    st1.m_generate_new = st.m_generate_new ∨ st1.m_import_new = st.m_import_new := by
  unfold askWallet at h
  split at h
  · cases h
  · split at h
    · cases h
    · split at h
      · cases h
      · split_ifs at h <;> cases h
        · exact Or.inl rfl
        · exact Or.inl rfl
        · exact Or.inr rfl
        · exact Or.inr rfl

theorem walletChoice_ne_simultaneous (env : InitEnv) (st : WalletMembers)
    (h : st.m_import_new = "") :
    walletChoice env st ≠ InitResult.refused simultaneousMessage := by
  unfold walletChoice
  split
  · rename_i hboth
    simp only [Bool.and_eq_true] at hboth
    cases hask : askWallet env.stdin st with
    | refused message =>
      simp only
      rw [← hask]
      exact askWallet_ne_simultaneous env.stdin st
    | threw => simp
    | blocked => simp
    | passed st1 =>
      simp only
      rcases askWallet_passed env.stdin st st1 hask with hg | hi
      · rw [walletGuard_generate_empty st1 (by rw [hg]; exact hboth.1)]
        intro hc; cases hc
      · rw [walletGuard_import_empty st1 (by rw [hi]; exact h)]
        intro hc; cases hc
  · rw [walletGuard_import_empty st h]
    intro hc; cases hc

theorem failed_parse_ne_simultaneous (address : String) :
    "Failed to parse Daemon address: " ++ address ≠ simultaneousMessage := by
  intro h
  have hh : ("Failed to parse Daemon address: " ++ address).data.head? = some 'F' := by
    rw [String.data_append]
    rfl
  rw [h] at hh
  revert hh
  decide

theorem daemonDefaults_import (st : WalletMembers) :
    (daemonDefaults st).m_import_new = st.m_import_new := by
  unfold daemonDefaults
  dsimp only
  split_ifs <;> rfl

theorem localDaemon_import (env : InitEnv) (st : WalletMembers) :
    (localDaemon env st).m_import_new = st.m_import_new := by
  unfold localDaemon
  dsimp only
  split_ifs <;> rfl

theorem daemonChoice_ne_simultaneous (env : InitEnv) (st : WalletMembers) :
    daemonChoice env st ≠ InitResult.refused simultaneousMessage := by
  unfold daemonChoice
  split
  · intro h
    simp only [InitResult.refused.injEq] at h
    revert h
    decide
  · split
    · split
      · intro h; cases h
      · intro h
        simp only [InitResult.refused.injEq] at h
        exact failed_parse_ne_simultaneous _ h
      · intro h; cases h
    · intro h; cases h

theorem daemonChoice_passed (env : InitEnv) (st st1 : WalletMembers)
    (h : daemonChoice env st = InitResult.passed st1) :
    st1.m_import_new = st.m_import_new := by
  unfold daemonChoice at h
  split at h
  · cases h
  · split at h
    · split at h
      · cases h
      · cases h
      · simp only [InitResult.passed.injEq] at h
        rw [← h]
        exact daemonDefaults_import st
    · simp only [InitResult.passed.injEq] at h
      rw [← h, localDaemon_import]
      exact daemonDefaults_import st

theorem init_ne_simultaneous (env : InitEnv) (vm : variables_map) :
    init env vm WalletMembers.fresh ≠ InitResult.refused simultaneousMessage := by
  unfold init
  cases hd : daemonChoice env (handle_command_line vm WalletMembers.fresh) with
  | refused message =>
    simp only
    rw [← hd]
    exact daemonChoice_ne_simultaneous env _
  | threw => simp
  | blocked => simp
  | passed st =>
    simp only
    apply walletChoice_ne_simultaneous
    rw [daemonChoice_passed env _ st hd]
    rfl

/-- C15 (code at the failing input): with both `generate-new-wallet` and
`wallet-file` given on the command line, `init` does not return false at the
guard on these arguments but goes on with both members set; the guard also
asks for a non-empty `m_import_new`, which is only ever set when the two
arguments are empty, so the refusal is never taken, whatever the command line
and the console input. -/
theorem C15_simultaneous_guard_never_taken :
    init sampleInitEnv bothWalletArguments WalletMembers.fresh ≠
      InitResult.refused simultaneousMessage ∧
    (∃ st, init sampleInitEnv bothWalletArguments WalletMembers.fresh = InitResult.passed st ∧
      st.m_generate_new = "a.wallet" ∧ st.m_wallet_file_arg = "b.wallet" ∧
      st.m_import_new = "") ∧
    (∀ (env : InitEnv) (vm : variables_map),
      init env vm WalletMembers.fresh ≠ InitResult.refused simultaneousMessage) := by
  refine ⟨init_ne_simultaneous _ _, ⟨_, rfl, rfl, rfl, rfl⟩, init_ne_simultaneous⟩

end simple_wallet
end CryptoNote

namespace CryptoNote
namespace simple_wallet

theorem reset_parsed (fromString : String → Option Nat) (lastLocalBlockHeight : Nat)
    (arg0 : String) (rest : List String) (height : Nat) (h : fromString arg0 = some height) :
    reset fromString lastLocalBlockHeight (arg0 :: rest) =
      if 1 ≤ lastLocalBlockHeight then
        (true, [WalletCall.syncAll true height, WalletCall.resetFrom (some height)])
      else (false, []) := by
  simp only [reset, h, Option.isSome_some, Option.getD_some, boolValue, if_true, Bool.true_and,
    decide_eq_true_eq]
  by_cases hl : 1 ≤ lastLocalBlockHeight
  · simp only [hl, if_true]
  · have h2 : 1 > lastLocalBlockHeight := by omega
    simp only [hl, if_false, h2, if_true]

/-- C16 (code at the failing input): with a last local block height of 10,
`reset 1000` is not refused: the wallet is re-synchronised and reset from
height 1000 and the handler goes on to return true; with a last local block
height of 0, `reset 0` is refused.  For a height that parses, the handler
compares the flag `ok`, not the height, with the last local block height, so
the outcome is the same for every height. -/
theorem C16_reset_ignores_the_height :
    reset (Common.fromStringDec 64) 10 ["1000"] =
      (true, [WalletCall.syncAll true 1000, WalletCall.resetFrom (some 1000)]) ∧
    reset (Common.fromStringDec 64) 0 ["0"] = (false, []) ∧
    (∀ (fromString : String → Option Nat) (lastLocalBlockHeight : Nat) (arg0 : String)
      (rest : List String) (height : Nat), fromString arg0 = some height →
      reset fromString lastLocalBlockHeight (arg0 :: rest) =
        if 1 ≤ lastLocalBlockHeight then
          (true, [WalletCall.syncAll true height, WalletCall.resetFrom (some height)])
        else (false, [])) := by
  refine ⟨by decide, by decide, ?_⟩
  intro fromString lastLocalBlockHeight arg0 rest height h
  exact reset_parsed fromString lastLocalBlockHeight arg0 rest height h

end simple_wallet
end CryptoNote

namespace DaemonCommandsHandler

theorem maxHeight_eq (H : Nat) (h1 : 1 ≤ H) (h2 : H < 2 ^ 32) :
    (H + 2 ^ 32 - 1) % 2 ^ 32 = H - 1 := by
  omega

theorem print_stat_nil (lexical_cast : String → Option Nat) (core : StatCore) :
    print_stat lexical_cast core [] =
      (true, some (statAtHeight core ((core.getDaemonHeight + 2 ^ 32 - 1) % 2 ^ 32))) := rfl

theorem print_stat_numeric (lexical_cast : String → Option Nat) (core : StatCore)
    (front : String) (rest : List String) (h : Nat) (hparse : lexical_cast front = some h) :
    print_stat lexical_cast core (front :: rest) =
      (true, some (statAtHeight core
        (min h ((core.getDaemonHeight + 2 ^ 32 - 1) % 2 ^ 32)))) := by
  simp only [print_stat, hparse]
  by_cases hgt : h > (core.getDaemonHeight + 2 ^ 32 - 1) % 2 ^ 32
  · simp only [hgt, if_true]
    rw [Nat.min_eq_right (Nat.le_of_lt hgt)]
  · simp only [hgt, if_false]
    rw [Nat.min_eq_left (Nat.not_lt.mp hgt)]

theorem active_coins_exact (total deposits : Nat) (ht : total < 2 ^ 64)
    (hle : deposits ≤ total) : (total + 2 ^ 64 - deposits) % 2 ^ 64 = total - deposits := by
  omega

theorem active_coins_wrap (total deposits : Nat) (ht : total < 2 ^ 64) (hd : deposits < 2 ^ 64)
    (hlt : total < deposits) :
    (total + 2 ^ 64 - deposits) % 2 ^ 64 = total + 2 ^ 64 - deposits := by
  omega

/-- C17: for a daemon height `H ≥ 1` (a `uint32_t`) and a numeric height
argument `h`, `print_stat` reports on the block at height `min(h, H - 1)`, and
on the block at height `H - 1` when no argument is given; the amount of active
coins it prints is the `uint64_t` difference of the coins emitted and the coins
on deposit at that height, so that banked coins plus active coins equal the
total coins in network whenever the deposits do not exceed the emission. -/
theorem C17_print_stat_report (lexical_cast : String → Option Nat) (core : StatCore)
    (hH1 : 1 ≤ core.getDaemonHeight) (hH32 : core.getDaemonHeight < 2 ^ 32)
    (hemitted : ∀ height, core.coinsEmittedAtHeight height < 2 ^ 64)
    (hdeposit : ∀ height, core.depositAmountAtHeight height < 2 ^ 64) :
    print_stat lexical_cast core [] =
      (true, some (statAtHeight core (core.getDaemonHeight - 1))) ∧
    (∀ front rest h, lexical_cast front = some h →
      print_stat lexical_cast core (front :: rest) =
        (true, some (statAtHeight core (min h (core.getDaemonHeight - 1))))) ∧
    (∀ height,
      (statAtHeight core height).height = height ∧
      (statAtHeight core height).totalCoinsInNetwork = core.coinsEmittedAtHeight height ∧
      (statAtHeight core height).totalCoinsOnDeposits = core.depositAmountAtHeight height ∧
      ((statAtHeight core height).amountOfActiveCoins : Int) =
        ((core.coinsEmittedAtHeight height : Int) - (core.depositAmountAtHeight height : Int))
          % 2 ^ 64 ∧
      (core.depositAmountAtHeight height ≤ core.coinsEmittedAtHeight height →
        (statAtHeight core height).amountOfActiveCoins =
          core.coinsEmittedAtHeight height - core.depositAmountAtHeight height ∧
        (statAtHeight core height).totalCoinsOnDeposits +
          (statAtHeight core height).amountOfActiveCoins =
            (statAtHeight core height).totalCoinsInNetwork)) := by
  have hmax := maxHeight_eq core.getDaemonHeight hH1 hH32
  refine ⟨?_, ?_, ?_⟩
  · rw [print_stat_nil, hmax]
  · intro front rest h hparse
    rw [print_stat_numeric lexical_cast core front rest h hparse, hmax]
  · intro height
    have ht := hemitted height
    have hd := hdeposit height
    refine ⟨rfl, rfl, rfl, ?_, ?_⟩
    · simp only [statAtHeight]
      omega
    · intro hle
      have hex := active_coins_exact _ _ ht hle
      simp only [statAtHeight]
      omega

/-- Witness of C17: with 100 blocks, `print_stat 250` reports on height 99. -/
theorem C17_print_stat_report_witness :
    print_stat (Common.fromStringDec 32) sampleStatCore ["250"] =
      (true, some (statAtHeight sampleStatCore (min 250 (sampleStatCore.getDaemonHeight - 1)))) :=
  (C17_print_stat_report (Common.fromStringDec 32) sampleStatCore (by decide) (by decide)
    (fun height => by simp only [sampleStatCore]; split_ifs <;> omega)
    (fun _ => by simp only [sampleStatCore]; omega)).2.1 "250" [] 250 (by decide)

end DaemonCommandsHandler
